import Mathlib

/-!
Verification of the `tokenstream` repository: a shallow embedding of the
token model (`tokenizer/__init__.py`), the infix lexer and stream
(`calculator/tokenizer.py`), the recursive-descent infix evaluator
(`calculator/__init__.py`), and the RPN lexer and evaluator
(`rpn/tokenizer.py`, `rpn/__init__.py`).

Modelling choices:
* Python floats are modelled as rationals `ℚ`.  Every numeric literal in the
  claims is exactly representable, and all claims are about parse structure
  and error routing, not rounding.  Rational division is total with
  `x / 0 = 0` (Python would raise `ZeroDivisionError`); no claim touches a
  zero divisor.  Python `**` with a non-integer exponent yields an
  irrational real; `qpow` models the integer-exponent case exactly and is
  otherwise outside the rational value model (no claim uses a non-integer
  exponent).
* The regex scan (`re.finditer` over the `GRAMMAR` pattern) is embedded as a
  character-level maximal-munch scanner with the same ordered alternatives:
  float literal, `**` before single-character operators, parentheses
  (infix grammar only), then a run of non-whitespace as an invalid match.
* Python exceptions become an `Except` error type whose constructors carry
  the offending token, matching the `TokenError` hierarchy; the `print` in
  `evaluate`'s `except TokenError` handler is modelled as a list of emitted
  output lines.
-/

set_option maxRecDepth 16384

namespace TokSpec

/-- The four named groups of the tokenizer regex (`match.lastgroup`). -/
inductive MKind where
  | number
  | operator
  | paren
  | invalid
deriving DecidableEq, Repr

/-- One regex match: its group, matched text, and start offset.  The end
offset of the match is `start + text.length`. -/
structure RMatch where
  kind : MKind
  text : List Char
  start : Nat
deriving DecidableEq, Repr

/-- Digit-run reading used by the float-literal embedding. -/
def digitsToNat (ds : List Char) : Nat :=
  ds.foldl (fun acc c => 10 * acc + (c.toNat - '0'.toNat)) 0

/-- Core of `FLOAT_PATTERN` after the optional sign: `\d*\.?\d+` with the
regex engine's backtracking semantics (a trailing `.` without digits is not
consumed). -/
def numCore (xs : List Char) : Option (List Char) :=
  let ds := xs.takeWhile Char.isDigit
  match xs.drop ds.length with
  | '.' :: r2 =>
    let fs := r2.takeWhile Char.isDigit
    if fs = [] then (if ds = [] then none else some ds)
    else some (ds ++ '.' :: fs)
  | _ => if ds = [] then none else some ds

/-- Optional exponent `([eE][-+]?\d+)?`: consumed only when the digits are
present (otherwise the regex backtracks and matches no exponent). -/
def numExp (xs : List Char) : List Char :=
  match xs with
  | c :: rest =>
    if c = 'e' ∨ c = 'E' then
      match rest with
      | s :: r2 =>
        if s = '+' ∨ s = '-' then
          let ds := r2.takeWhile Char.isDigit
          if ds = [] then [] else c :: s :: ds
        else
          let ds := rest.takeWhile Char.isDigit
          if ds = [] then [] else c :: ds
      | [] => []
    else []
  | [] => []

/-- Unsigned float literal: core followed by an optional exponent. -/
def numToken (xs : List Char) : Option (List Char) :=
  match numCore xs with
  | some core => some (core ++ numExp (xs.drop core.length))
  | none => none

/-- `FLOAT_PATTERN = [-+]?\d*\.?\d+([eE][-+]?\d+)?` matched at the head of
`xs`: the sign is taken when the remainder still matches (when it does not,
the signless alternative cannot start with `+`/`-` either, so the whole
pattern fails). -/
def matchNumber (xs : List Char) : Option (List Char) :=
  match xs with
  | c :: rest =>
    if c = '+' ∨ c = '-' then (numToken rest).map (fun t => c :: t)
    else numToken xs
  | [] => none

/-- One attempt of the alternation at the current scan position, in the
regex's priority order.  `ifx = true` selects the infix `GRAMMAR`
(`**`, `^`, parentheses); `ifx = false` the RPN `GRAMMAR` (only
`+ - * /`).  The invalid alternative is `\S+`: the whole run of
non-whitespace characters from this position. -/
def tryMatch (ifx : Bool) (rem : List Char) : Option (MKind × List Char) :=
  match matchNumber rem with
  | some t => some (.number, t)
  | none =>
    match rem with
    | [] => none
    | c :: rest =>
      if ifx ∧ c = '*' ∧ rest.head? = some '*' then some (.operator, ['*', '*'])
      else if (if ifx then c ∈ ['+', '-', '*', '/', '^'] else c ∈ ['+', '-', '*', '/']) then
        some (.operator, [c])
      else if ifx ∧ (c = '(' ∨ c = ')') then some (.paren, [c])
      else if ¬ c.isWhitespace then
        some (.invalid, c :: rest.takeWhile (fun d => ¬ d.isWhitespace))
      else none

/-- The `finditer` loop: try a match at the current position; on success
emit it and continue after it, otherwise skip one character.  Every match is
nonempty, so fuel `cs.length + 1` never runs out. -/
def scanGo (ifx : Bool) : Nat → Nat → List Char → List RMatch
  | 0, _, _ => []
  | fuel + 1, pos, rem =>
    match tryMatch ifx rem with
    | some (k, t) => ⟨k, t, pos⟩ :: scanGo ifx fuel (pos + t.length) (rem.drop t.length)
    | none =>
      match rem with
      | [] => []
      | _ :: tl => scanGo ifx fuel (pos + 1) tl

/-- All regex matches of the expression, in order. -/
def scan (ifx : Bool) (cs : List Char) : List RMatch :=
  scanGo ifx (cs.length + 1) 0 cs

/-- `float(tok)` on a matched literal, exactly in `ℚ`. -/
def parseFloat (t : List Char) : ℚ :=
  let unsigned : List Char → ℚ := fun u =>
    let m := u.takeWhile (fun c => ¬ (c = 'e' ∨ c = 'E'))
    let ex := u.drop m.length
    let ip := m.takeWhile Char.isDigit
    let fracDigits : List Char :=
      match m.drop ip.length with
      | '.' :: r => r
      | _ => []
    let mant : ℚ := (digitsToNat ip : ℚ) + (digitsToNat fracDigits : ℚ) / (10 ^ fracDigits.length)
    let expVal : ℤ :=
      match ex with
      | _ :: '+' :: ds => (digitsToNat ds : ℤ)
      | _ :: '-' :: ds => -(digitsToNat ds : ℤ)
      | _ :: ds => (digitsToNat ds : ℤ)
      | [] => 0
    mant * (10 : ℚ) ^ expVal
  match t with
  | '+' :: r => unsigned r
  | '-' :: r => - unsigned r
  | _ => unsigned t

/-- Infix operator symbols: the `Operators` literal type
`"+" | "-" | "*" | "/" | "**" | "^"` of `calculator/tokenizer.py`. -/
inductive IOp where
  | plus
  | minus
  | times
  | divide
  | pow
  | caret
deriving DecidableEq, Repr

/-- Parenthesis symbols: the `Parentheses` literal type `"(" | ")"`. -/
inductive IParen where
  | lparen
  | rparen
deriving DecidableEq, Repr

/-- Infix tokens: the `TokenType = Number | Operator | Parenthesis | Invalid`
union.  Each token carries its value and half-open source span
`[start, stop)`, as the `Token` dataclass does. -/
inductive ITok where
  | number (v : ℚ) (start stop : Nat)
  | operator (o : IOp) (start stop : Nat)
  | paren (p : IParen) (start stop : Nat)
  | invalid (s : String) (start stop : Nat)
deriving DecidableEq, Repr

/-- Start offset of a token (the `start` field of the `Token` dataclass). -/
def ITok.start : ITok → Nat
  | .number _ s _ => s
  | .operator _ s _ => s
  | .paren _ s _ => s
  | .invalid _ s _ => s

/-- End offset of a token (the `end` field of the `Token` dataclass). -/
def ITok.stop : ITok → Nat
  | .number _ _ e => e
  | .operator _ _ e => e
  | .paren _ _ e => e
  | .invalid _ _ e => e

/-- Whether a token is a `Number`. -/
def ITok.isNumber : ITok → Bool
  | .number _ _ _ => true
  | _ => false

/-- The `tok in Tokenizer.OPERATORS` membership test, returning the
recognized operator. -/
def toIOp? : List Char → Option IOp
  | ['+'] => some .plus
  | ['-'] => some .minus
  | ['*'] => some .times
  | ['/'] => some .divide
  | ['*', '*'] => some .pow
  | ['^'] => some .caret
  | _ => none

/-- The `Tokenizer._tokenize` loop of `calculator/tokenizer.py`: walk the
regex matches carrying `previousType` (the previous match's group, `none`
for the initial `""`).  A number match starting with `+`/`-` immediately
after another number match is split into a one-character `Operator` and the
remaining `Number`; an operator or parenthesis match outside the recognized
symbol sets falls through to `Invalid`. -/
def emitSeg (prev : Option MKind) (m : RMatch) : List ITok :=
  let stop := m.start + m.text.length
  match m.kind with
  | .number =>
    match m.text with
    | c :: restTxt =>
      if prev = some MKind.number ∧ (c = '-' ∨ c = '+') then
        [.operator (if c = '-' then .minus else .plus) m.start (m.start + 1),
          .number (parseFloat restTxt) (m.start + 1) stop]
      else [.number (parseFloat m.text) m.start stop]
    | [] => [.number (parseFloat m.text) m.start stop]
  | .operator =>
    match toIOp? m.text with
    | some o => [.operator o m.start stop]
    | none => [.invalid (String.mk m.text) m.start stop]
  | .paren =>
    match m.text with
    | ['('] => [.paren .lparen m.start stop]
    | [')'] => [.paren .rparen m.start stop]
    | _ => [.invalid (String.mk m.text) m.start stop]
  | .invalid => [.invalid (String.mk m.text) m.start stop]

/-- The full `_tokenize` loop: one segment per match, the `previousType`
state advancing to the current match's group. -/
def emitToks : Option MKind → List RMatch → List ITok
  | _, [] => []
  | prev, m :: ms => emitSeg prev m ++ emitToks (some m.kind) ms

/-- The full infix lexer: scan with the infix grammar, then emit tokens. -/
def calcTokenize (cs : List Char) : List ITok :=
  emitToks none (scan true cs)

/-- The `Tokenizer` stream state: the single-slot `_lookahead` buffer plus
the not-yet-consumed remainder of the underlying lazy token sequence. -/
structure Tokenizer where
  lookahead : Option ITok
  tokens : List ITok
deriving DecidableEq, Repr

/-- The error taxonomy of `tokenizer/__init__.py` and
`calculator/tokenizer.py`.  `invalidTok`, `unexpectedTok` and
`cannotReinsert` are the `TokenError` subclasses carrying the offending
token; `unexpectedEnd` is `UnexpectedEndOfExpressionError` (a plain
`ValueError`, not a `TokenError`).  `outOfFuel` is an artifact of the
fuelled embedding of the recursive parser and is never reached from
`calcEvaluate`'s fuel budget. -/
inductive CalcErr where
  | invalidTok (t : ITok)
  | unexpectedTok (t : ITok)
  | unexpectedEnd
  | cannotReinsert (t : ITok)
  | outOfFuel
deriving DecidableEq, Repr

/-- The token carried by a `TokenError`, when the error is one. -/
def errToken : CalcErr → Option ITok
  | .invalidTok t => some t
  | .unexpectedTok t => some t
  | .cannotReinsert t => some t
  | .unexpectedEnd => none
  | .outOfFuel => none

/-- Whether the error is (a subclass of) `TokenError`, i.e. is caught and
printed by `evaluate`'s `except TokenError` handler. -/
def errIsTokenError (e : CalcErr) : Bool :=
  (errToken e).isSome

/-- `Tokenizer.__next__` with the `next(tokens, None)` default: return the
buffered token (clearing the slot) if present, else the head of the
underlying sequence, else `none` at end of input. -/
def Tokenizer.next : Tokenizer → Option (ITok × Tokenizer)
  | ⟨some t, ts⟩ => some (t, ⟨none, ts⟩)
  | ⟨none, t :: ts⟩ => some (t, ⟨none, ts⟩)
  | ⟨none, []⟩ => none

/-- `Tokenizer.reinsert`: fails with a `TokenError` carrying the buffered
token when the slot is occupied; otherwise stores the token. -/
def Tokenizer.reinsert (st : Tokenizer) (t : ITok) : Except CalcErr Tokenizer :=
  match st.lookahead with
  | some u => .error (.cannotReinsert u)
  | none => .ok ⟨some t, st.tokens⟩

/-- Python `**` on the rational value model: exact for integer exponents
(the only exponents the claims exercise); a non-integer exponent would give
an irrational real in Python and lies outside the rational model. -/
def qpow (a b : ℚ) : ℚ :=
  if b.den = 1 then a ^ b.num else 0

/-- The four grammar levels `_expression`, `_term`, `_factor`, `_base` of
`calculator/__init__.py`. -/
inductive Level where
  | expr
  | term
  | factor
  | base
deriving DecidableEq, Repr

/-- The recursive-descent evaluator of `calculator/__init__.py`, one case
per grammar procedure, fuelled for termination.  Note that `_expression`
recurses into `_expression` for its right operand (so `+`/`-` chains group
to the right), and `_term` and `_factor` take their right operand from the
next lower, respectively the same, level exactly as the Python does. -/
def parse : Nat → Level → Tokenizer → Except CalcErr (ℚ × Tokenizer)
  | 0, _, _ => .error .outOfFuel
  | fuel + 1, .expr, st =>
    match parse fuel .term st with
    | .error e => .error e
    | .ok (v, st1) =>
      match st1.next with
      | some (.operator .plus _ _, st2) =>
        match parse fuel .expr st2 with
        | .error e => .error e
        | .ok (w, st3) => .ok (v + w, st3)
      | some (.operator .minus _ _, st2) =>
        match parse fuel .expr st2 with
        | .error e => .error e
        | .ok (w, st3) => .ok (v - w, st3)
      | none => .ok (v, st1)
      | some (t, st2) =>
        match st2.reinsert t with
        | .error e => .error e
        | .ok st3 => .ok (v, st3)
  | fuel + 1, .term, st =>
    match parse fuel .factor st with
    | .error e => .error e
    | .ok (v, st1) =>
      match st1.next with
      | some (.operator .times _ _, st2) =>
        match parse fuel .factor st2 with
        | .error e => .error e
        | .ok (w, st3) => .ok (v * w, st3)
      | some (.operator .divide _ _, st2) =>
        match parse fuel .factor st2 with
        | .error e => .error e
        | .ok (w, st3) => .ok (v / w, st3)
      | none => .ok (v, st1)
      | some (t, st2) =>
        match st2.reinsert t with
        | .error e => .error e
        | .ok st3 => .ok (v, st3)
  | fuel + 1, .factor, st =>
    match parse fuel .base st with
    | .error e => .error e
    | .ok (v, st1) =>
      match st1.next with
      | some (.operator .pow _ _, st2) =>
        match parse fuel .factor st2 with
        | .error e => .error e
        | .ok (w, st3) => .ok (qpow v w, st3)
      | some (.operator .caret _ _, st2) =>
        match parse fuel .factor st2 with
        | .error e => .error e
        | .ok (w, st3) => .ok (qpow v w, st3)
      | none => .ok (v, st1)
      | some (t, st2) =>
        match st2.reinsert t with
        | .error e => .error e
        | .ok st3 => .ok (v, st3)
  | fuel + 1, .base, st =>
    match st.next with
    | some (.number v _ _, st1) => .ok (v, st1)
    | some (.operator .minus _ _, st1) =>
      match parse fuel .expr st1 with
      | .error e => .error e
      | .ok (w, st2) => .ok (-w, st2)
    | some (.paren .lparen _ _, st1) =>
      match parse fuel .expr st1 with
      | .error e => .error e
      | .ok (v, st2) =>
        match st2.next with
        | some (.paren .rparen _ _, st3) => .ok (v, st3)
        | none => .error .unexpectedEnd
        | some (t, _) => .error (.unexpectedTok t)
    | none => .error .unexpectedEnd
    | some (t, _) => .error (.unexpectedTok t)

/-- Evaluation of a token sequence: run `_expression` on a fresh stream,
then apply the top-level leftover-token check of `evaluate` (a leftover
`Invalid` token raises `InvalidTokenError`, any other leftover token
`UnexpectedTokenError`). -/
def calcEvalTokens (ts : List ITok) : Except CalcErr ℚ :=
  match parse (4 * ts.length + 8) .expr ⟨none, ts⟩ with
  | .error e => .error e
  | .ok (v, st1) =>
    match st1.next with
    | none => .ok v
    | some (.invalid s a b, _) => .error (.invalidTok (.invalid s a b))
    | some (t, _) => .error (.unexpectedTok t)

/-- The caret diagnostic printed by `evaluate`'s `except TokenError`
handler. -/
def diagnostic (s : String) (t : ITok) : String :=
  "Invalid expression!\n> " ++ s ++ "\n  " ++
    String.mk (List.replicate t.start ' ') ++
    String.mk (List.replicate (t.stop - t.start) '^')

/-- Top-level `evaluate` of `calculator/__init__.py`, with its console
output modelled as a list of printed strings: a `TokenError` is printed
(with the caret diagnostic) and re-raised; other failures and successes
print nothing. -/
def calcEvaluateRun (s : String) : Except CalcErr ℚ × List String :=
  match calcEvalTokens (calcTokenize s.toList) with
  | .ok v => (.ok v, [])
  | .error e =>
    match errToken e with
    | some t => (.error e, [diagnostic s t])
    | none => (.error e, [])

/-- The value/error part of `evaluate`. -/
def calcEvaluate (s : String) : Except CalcErr ℚ :=
  (calcEvaluateRun s).1

/-- RPN operator symbols: the `Operators` literal type
`"+" | "-" | "*" | "/"` of `rpn/tokenizer.py`. -/
inductive ROp where
  | plus
  | minus
  | times
  | divide
deriving DecidableEq, Repr

/-- RPN tokens: the `TokenType = Number | Operator | Invalid` union of
`rpn/tokenizer.py` (no parentheses in the RPN grammar). -/
inductive RTok where
  | number (v : ℚ) (start stop : Nat)
  | op (o : ROp) (start stop : Nat)
  | invalid (s : String) (start stop : Nat)
deriving DecidableEq, Repr

/-- The `val in Tokenizer.OPERATORS` membership test of the RPN lexer. -/
def toROp? : List Char → Option ROp
  | ['+'] => some .plus
  | ['-'] => some .minus
  | ['*'] => some .times
  | ['/'] => some .divide
  | _ => none

/-- The RPN lexer `Tokenizer._tokenize` of `rpn/tokenizer.py`: one token
per regex match, with no sign-disambiguation pass. -/
def rpnTokenize (cs : List Char) : List RTok :=
  (scan false cs).map (fun m =>
    let stop := m.start + m.text.length
    match m.kind with
    | .number => .number (parseFloat m.text) m.start stop
    | .operator =>
      match toROp? m.text with
      | some o => .op o m.start stop
      | none => .invalid (String.mk m.text) m.start stop
    | _ => .invalid (String.mk m.text) m.start stop)

/-- The error taxonomy raised by `rpn.evaluate`. -/
inductive RpnErr where
  | invalidTok (t : RTok)
  | unexpectedTok (t : RTok)
  | unexpectedEnd
deriving DecidableEq, Repr

/-- The inner `match operator` arithmetic of `rpn.evaluate`, applied as
`left OP right`. -/
def applyROp : ROp → ℚ → ℚ → ℚ
  | .plus, l, r => l + r
  | .minus, l, r => l - r
  | .times, l, r => l * r
  | .divide, l, r => l / r

/-- The token loop of `rpn.evaluate` over the operand stack (head = top of
the deque, i.e. the most recently pushed value): a `Number` pushes; an
`Operator` with at least two stacked values pops `right` then `left` and
pushes `left OP right`; an `Operator` with fewer falls through to the
catch-all `UnexpectedTokenError`; an `Invalid` token raises
`InvalidTokenError`.  After the stream is exhausted the stack must hold
exactly one value. -/
def rpnGo : List ℚ → List RTok → Except RpnErr ℚ
  | [v], [] => .ok v
  | _, [] => .error .unexpectedEnd
  | st, .number v _ _ :: ts => rpnGo (v :: st) ts
  | r :: l :: rest, .op o _ _ :: ts => rpnGo (applyROp o l r :: rest) ts
  | _, .op o a b :: _ => .error (.unexpectedTok (.op o a b))
  | _, .invalid s a b :: _ => .error (.invalidTok (.invalid s a b))

/-- `rpn.evaluate` on a token sequence, from the empty stack. -/
def rpnEvalTokens (ts : List RTok) : Except RpnErr ℚ :=
  rpnGo [] ts

/-- Top-level `rpn.evaluate` on a string. -/
def rpnEvaluate (s : String) : Except RpnErr ℚ :=
  rpnEvalTokens (rpnTokenize s.toList)

/-- Spec-side run predicate: the final stack of the left-to-right pass, or
`none` when the pass aborts (operator with fewer than two stacked values,
or an invalid token). -/
def rpnFinal : List ℚ → List RTok → Option (List ℚ)
  | st, [] => some st
  | st, .number v _ _ :: ts => rpnFinal (v :: st) ts
  | r :: l :: rest, .op o _ _ :: ts => rpnFinal (applyROp o l r :: rest) ts
  | _, .op _ _ _ :: _ => none
  | _, .invalid _ _ _ :: _ => none

/-- Spec-side predicate: the left-to-right pass reaches an operator token
while the stack holds fewer than two values (processing having stopped at
any earlier invalid token). -/
def rpnUnderflows : List ℚ → List RTok → Bool
  | _, [] => false
  | st, .number v _ _ :: ts => rpnUnderflows (v :: st) ts
  | r :: l :: rest, .op o _ _ :: ts => rpnUnderflows (applyROp o l r :: rest) ts
  | _, .op _ _ _ :: _ => true
  | _, .invalid _ _ _ :: _ => false

/-- Spec-side predicate: the left-to-right pass reaches an `Invalid` token
(before any operator underflow). -/
def rpnHitsInvalid : List ℚ → List RTok → Bool
  | _, [] => false
  | st, .number v _ _ :: ts => rpnHitsInvalid (v :: st) ts
  | r :: l :: rest, .op o _ _ :: ts => rpnHitsInvalid (applyROp o l r :: rest) ts
  | _, .op _ _ _ :: _ => false
  | _, .invalid _ _ _ :: _ => true

/-- Decidable equality on `Except`, so concrete evaluations can be settled
by `decide`. -/
instance exceptDecEq {ε α : Type} [DecidableEq ε] [DecidableEq α] :
    DecidableEq (Except ε α) := fun x y =>
  match x, y with
  | .ok a, .ok b =>
    if h : a = b then isTrue (by rw [h])
    else isFalse (by intro hh; cases hh; exact h rfl)
  | .error a, .error b =>
    if h : a = b then isTrue (by rw [h])
    else isFalse (by intro hh; cases hh; exact h rfl)
  | .ok _, .error _ => isFalse (by intro hh; cases hh)
  | .error _, .ok _ => isFalse (by intro hh; cases hh)

/-- Whether a run of `evaluate` ended in a `TokenError`. -/
def resultIsTokenError : Except CalcErr ℚ → Bool
  | .error e => errIsTokenError e
  | .ok _ => false

/-- Whether the character at offset `i` of the source is a sign
character. -/
def isSignAt (cs : List Char) (i : Nat) : Bool :=
  match cs.get? i with
  | some c => c == '-' || c == '+'
  | none => false

/-- C1: the claim says the infix `evaluate` performs standard left-to-right,
precedence-respecting evaluation on `+ - * /` chains, with
`evaluate("4-3-2") = -1` and `evaluate("2*3*4") = 24`.  The package
evaluator (`src/calculator/__init__.py`) instead parses the right operand of
`+`/`-` with a recursive `_expression` call (grouping subtraction chains to
the right) and consumes at most one `*`/`/` per `_term` (so a second `*` is
left over and rejected): `evaluate("4-3-2")` returns `3` and
`evaluate("2*3*4")` raises `UnexpectedTokenError` on the second `*`. -/
theorem c1_chain_evaluation_bug :
    calcEvaluate "4-3-2" = .ok 3 ∧
    calcEvaluate "2*3*4" = .error (.unexpectedTok (.operator .times 3 4)) := by
  constructor <;> with_unfolding_all decide

/-- C2: the RPN `evaluate` processes tokens left to right over an operand
stack: a `Number` pushes its value; an operator seen with at least two
stacked values pops the top value as `right` and the next as `left` and
pushes `left OP right`; and `evaluate("2 3 +") = 5`,
`evaluate("2 3 + 4 *") = 20`. -/
theorem c2_rpn_stack_semantics :
    (∀ (st : List ℚ) (v : ℚ) (a b : Nat) (ts : List RTok),
      rpnGo st (RTok.number v a b :: ts) = rpnGo (v :: st) ts) ∧
    (∀ (l r : ℚ) (rest : List ℚ) (o : ROp) (a b : Nat) (ts : List RTok),
      rpnGo (r :: l :: rest) (RTok.op o a b :: ts) =
        rpnGo (applyROp o l r :: rest) ts) ∧
    rpnEvaluate "2 3 +" = .ok 5 ∧
    rpnEvaluate "2 3 + 4 *" = .ok 20 := by
  refine ⟨fun st v a b ts => by simp [rpnGo],
    fun l r rest o a b ts => by simp [rpnGo], by with_unfolding_all decide, by with_unfolding_all decide⟩

/-- C5: exponentiation is right-associative: any chain `a ** b ** c` (with
arbitrary token spans) evaluates as `a ** (b ** c)`, and
`evaluate("2 ** 3 ** 2") = 512` (in particular not `64`, since
`(512 : ℚ) ≠ 64`). -/
theorem c5_pow_right_associative :
    (∀ (a b c : ℚ) (s1 e1 s2 e2 s3 e3 s4 e4 s5 e5 : Nat),
      calcEvalTokens [ITok.number a s1 e1, ITok.operator .pow s2 e2,
        ITok.number b s3 e3, ITok.operator .pow s4 e4, ITok.number c s5 e5] =
        .ok (qpow a (qpow b c))) ∧
    calcEvaluate "2 ** 3 ** 2" = .ok 512 ∧ (512 : ℚ) ≠ 64 := by
  refine ⟨fun a b c s1 e1 s2 e2 s3 e3 s4 e4 s5 e5 => rfl, by with_unfolding_all decide, by with_unfolding_all decide⟩

/-- C6: a unary minus consumed by `_base` recurses into `_expression` (not
`_factor`), so it negates the value of the full following expression; and
`evaluate("-(-3)") = 3`, `evaluate("--3") = 3`. -/
theorem c6_unary_minus_full_expression :
    (∀ (fuel a b : Nat) (ts : List ITok),
      parse (fuel + 1) .base ⟨none, ITok.operator .minus a b :: ts⟩ =
        (parse fuel .expr ⟨none, ts⟩).map (fun p => (-p.1, p.2))) ∧
    calcEvaluate "-(-3)" = .ok 3 ∧
    calcEvaluate "--3" = .ok 3 := by
  refine ⟨fun fuel a b ts => ?_, by with_unfolding_all decide, by with_unfolding_all decide⟩
  cases h : parse fuel .expr ⟨none, ts⟩ <;>
    simp [parse, Tokenizer.next, Except.map, h]

/-- C7: `evaluate("3 + 4 & 10")` fails with `InvalidTokenError` whose token
is the `Invalid` token with text `"&"` and half-open span `[6, 7)`; and
every `TokenError` constructor carries its offending token (value and
span). -/
theorem c7_invalid_token_error :
    calcEvaluate "3 + 4 & 10" = .error (.invalidTok (.invalid "&" 6 7)) ∧
    (∀ t : ITok, errToken (CalcErr.invalidTok t) = some t ∧
      errToken (CalcErr.unexpectedTok t) = some t ∧
      errToken (CalcErr.cannotReinsert t) = some t) := by
  refine ⟨by with_unfolding_all decide, fun t => ⟨rfl, rfl, rfl⟩⟩

/-- C8: on a stream whose pushback slot is empty, `reinsert t` succeeds and
the following `next()` returns exactly `t`, leaving the underlying token
sequence unchanged; `reinsert` on a stream that already buffers a token
fails with the `TokenError` carrying the buffered token instead of storing
the new one. -/
theorem c8_reinsert_single_slot (t u : ITok) (st : Tokenizer)
    (h : st.lookahead = none) :
    st.reinsert t = .ok ⟨some t, st.tokens⟩ ∧
    Tokenizer.next ⟨some t, st.tokens⟩ = some (t, ⟨none, st.tokens⟩) ∧
    Tokenizer.reinsert ⟨some u, st.tokens⟩ t = .error (.cannotReinsert u) := by
  refine ⟨?_, rfl, rfl⟩
  simp [Tokenizer.reinsert, h]

/-- Witness for C8 at a concrete stream and tokens. -/
theorem c8_reinsert_single_slot_witness :
    Tokenizer.reinsert ⟨none, [ITok.number 1 0 1]⟩ (ITok.number 2 1 2) =
      .ok ⟨some (ITok.number 2 1 2), [ITok.number 1 0 1]⟩ ∧
    Tokenizer.next ⟨some (ITok.number 2 1 2), [ITok.number 1 0 1]⟩ =
      some (ITok.number 2 1 2, ⟨none, [ITok.number 1 0 1]⟩) ∧
    Tokenizer.reinsert ⟨some (ITok.number 3 2 3), [ITok.number 1 0 1]⟩
      (ITok.number 2 1 2) = .error (.cannotReinsert (ITok.number 3 2 3)) :=
  c8_reinsert_single_slot (ITok.number 2 1 2) (ITok.number 3 2 3)
    ⟨none, [ITok.number 1 0 1]⟩ rfl

/-- C9 counterexample: on input `")"` the top-level `evaluate` prints the
caret diagnostic (its output-line list is nonempty), refuting the claim
that `evaluate` performs no console output on any input. -/
theorem c9_counterexample : (calcEvaluateRun ")").2 ≠ [] := by with_unfolding_all decide

/-- C9 (amended): `evaluate` prints the caret diagnostic exactly when the
raised error is a `TokenError` (one carrying the offending token);
successful evaluations — and `UnexpectedEndOfExpressionError` failures,
which are not `TokenError`s — print nothing. -/
theorem c9_prints_exactly_on_token_errors (s : String) :
    (calcEvaluateRun s).2 = [] ↔
      resultIsTokenError (calcEvaluateRun s).1 = false := by
  unfold calcEvaluateRun
  cases h : calcEvalTokens (calcTokenize s.toList) with
  | ok v => simp [resultIsTokenError]
  | error e =>
    cases he : errToken e <;>
      simp [resultIsTokenError, errIsTokenError, he]

/-- The run fails with `UnexpectedTokenError` exactly when it reaches an
operator token with fewer than two stacked values. -/
lemma rpnGo_unexpectedTok_iff (ts : List RTok) : ∀ st : List ℚ,
    (∃ t, rpnGo st ts = .error (.unexpectedTok t)) ↔ rpnUnderflows st ts = true := by
  induction ts with
  | nil =>
    intro st
    match st with
    | [] => simp [rpnGo, rpnUnderflows]
    | [v] => simp [rpnGo, rpnUnderflows]
    | a :: b :: r => simp [rpnGo, rpnUnderflows]
  | cons t ts ih =>
    intro st
    match t with
    | .number v a b => simpa [rpnGo, rpnUnderflows] using ih (v :: st)
    | .op o a b =>
      match st with
      | r :: l :: rest => simpa [rpnGo, rpnUnderflows] using ih (applyROp o l r :: rest)
      | [] => simp [rpnGo, rpnUnderflows]
      | [x] => simp [rpnGo, rpnUnderflows]
    | .invalid s a b => simp [rpnGo, rpnUnderflows]

/-- The run fails with `UnexpectedEndOfExpressionError` exactly when the
pass completes on the whole sequence with a final stack not holding exactly
one value. -/
lemma rpnGo_unexpectedEnd_iff (ts : List RTok) : ∀ st : List ℚ,
    rpnGo st ts = .error .unexpectedEnd ↔
      (∃ fs, rpnFinal st ts = some fs ∧ fs.length ≠ 1) := by
  induction ts with
  | nil =>
    intro st
    match st with
    | [] => simp [rpnGo, rpnFinal]
    | [v] => simp [rpnGo, rpnFinal]
    | a :: b :: r => simp [rpnGo, rpnFinal]
  | cons t ts ih =>
    intro st
    match t with
    | .number v a b => simpa [rpnGo, rpnFinal] using ih (v :: st)
    | .op o a b =>
      match st with
      | r :: l :: rest => simpa [rpnGo, rpnFinal] using ih (applyROp o l r :: rest)
      | [] => simp [rpnGo, rpnFinal]
      | [x] => simp [rpnGo, rpnFinal]
    | .invalid s a b => simp [rpnGo, rpnFinal]

/-- The run fails with `InvalidTokenError` exactly when it reaches an
`Invalid` token. -/
lemma rpnGo_invalidTok_iff (ts : List RTok) : ∀ st : List ℚ,
    (∃ t, rpnGo st ts = .error (.invalidTok t)) ↔ rpnHitsInvalid st ts = true := by
  induction ts with
  | nil =>
    intro st
    match st with
    | [] => simp [rpnGo, rpnHitsInvalid]
    | [v] => simp [rpnGo, rpnHitsInvalid]
    | a :: b :: r => simp [rpnGo, rpnHitsInvalid]
  | cons t ts ih =>
    intro st
    match t with
    | .number v a b => simpa [rpnGo, rpnHitsInvalid] using ih (v :: st)
    | .op o a b =>
      match st with
      | r :: l :: rest => simpa [rpnGo, rpnHitsInvalid] using ih (applyROp o l r :: rest)
      | [] => simp [rpnGo, rpnHitsInvalid]
      | [x] => simp [rpnGo, rpnHitsInvalid]
    | .invalid s a b => simp [rpnGo, rpnHitsInvalid]

/-- The run returns a value exactly when the pass completes with that value
as the only stacked one. -/
lemma rpnGo_ok_iff (ts : List RTok) : ∀ (st : List ℚ) (v : ℚ),
    rpnGo st ts = .ok v ↔ rpnFinal st ts = some [v] := by
  induction ts with
  | nil =>
    intro st v
    match st with
    | [] => simp [rpnGo, rpnFinal]
    | [w] => simp [rpnGo, rpnFinal]
    | a :: b :: r => simp [rpnGo, rpnFinal]
  | cons t ts ih =>
    intro st v
    match t with
    | .number w a b => simpa [rpnGo, rpnFinal] using ih (w :: st) v
    | .op o a b =>
      match st with
      | r :: l :: rest => simpa [rpnGo, rpnFinal] using ih (applyROp o l r :: rest) v
      | [] => simp [rpnGo, rpnFinal]
      | [x] => simp [rpnGo, rpnFinal]
    | .invalid s a b => simp [rpnGo, rpnFinal]

/-- C3 counterexample: on the token sequence holding the single `Invalid`
token `"a"`, neither of the claim's two failure conditions holds (no
operator ever arrives with a small stack, and the pass never exhausts the
sequence), yet `evaluate` does not return a stack value: it fails with
`InvalidTokenError`. -/
theorem c3_counterexample :
    rpnEvalTokens [RTok.invalid "a" 0 1] =
      .error (.invalidTok (.invalid "a" 0 1)) ∧
    rpnUnderflows [] [RTok.invalid "a" 0 1] = false ∧
    rpnFinal [] [RTok.invalid "a" 0 1] = none := by
  refine ⟨rfl, rfl, rfl⟩

/-- C3 (amended): the RPN `evaluate` fails with `UnexpectedTokenError`
exactly when an operator token arrives while the operand stack holds fewer
than two values; fails with `UnexpectedEndOfExpressionError` exactly when
the token sequence is exhausted with the stack holding zero or more than
one value; fails with `InvalidTokenError` exactly when an `Invalid` token
arrives; and otherwise returns the single remaining stack value (the run
returns `v` exactly when the pass completes with final stack `[v]`).  In
particular `evaluate("2 +")` fails with `UnexpectedTokenError` naming the
`+` token and `evaluate("1 2 3 +")` fails with
`UnexpectedEndOfExpressionError`. -/
theorem c3_rpn_error_conditions :
    (∀ (st : List ℚ) (ts : List RTok),
      (∃ t, rpnGo st ts = .error (.unexpectedTok t)) ↔
        rpnUnderflows st ts = true) ∧
    (∀ (st : List ℚ) (ts : List RTok),
      rpnGo st ts = .error .unexpectedEnd ↔
        (∃ fs, rpnFinal st ts = some fs ∧ fs.length ≠ 1)) ∧
    (∀ (st : List ℚ) (ts : List RTok),
      (∃ t, rpnGo st ts = .error (.invalidTok t)) ↔
        rpnHitsInvalid st ts = true) ∧
    (∀ (st : List ℚ) (ts : List RTok) (v : ℚ),
      rpnGo st ts = .ok v ↔ rpnFinal st ts = some [v]) ∧
    rpnEvaluate "2 +" = .error (.unexpectedTok (.op .plus 2 3)) ∧
    rpnEvaluate "1 2 3 +" = .error .unexpectedEnd := by
  refine ⟨fun st ts => rpnGo_unexpectedTok_iff ts st,
    fun st ts => rpnGo_unexpectedEnd_iff ts st,
    fun st ts => rpnGo_invalidTok_iff ts st,
    fun st ts v => rpnGo_ok_iff ts st v,
    by with_unfolding_all decide, by with_unfolding_all decide⟩

/-- Heads of dropped lists, as positional lookup. -/
lemma head?_drop_eq {α : Type} (l : List α) : ∀ n : Nat, (l.drop n).head? = l.get? n := by
  induction l with
  | nil => intro n; cases n <;> rfl
  | cons a l ih =>
    intro n
    cases n with
    | zero => rfl
    | succ k => exact ih k

/-- Composing two drops. -/
lemma drop_drop_eq {α : Type} (l : List α) (n k : Nat) :
    (l.drop n).drop k = l.drop (n + k) := by
  induction n generalizing l with
  | zero => simp
  | succ i ih =>
    cases l with
    | nil => simp
    | cons a l' => simp [Nat.succ_add]

/-- A successful head of `takeWhile` is the head of the list. -/
lemma takeWhile_head_cases (p : Char → Bool) (l : List Char) :
    l.takeWhile p = [] ∨ (l.takeWhile p).head? = l.head? := by
  cases l with
  | nil => left; rfl
  | cons c l' =>
    by_cases hc : p c
    · right; simp [List.takeWhile_cons, hc]
    · left; simp [List.takeWhile_cons, hc]

/-- A cons-valued `takeWhile` starts at the head of the list. -/
lemma takeWhile_cons_head (p : Char → Bool) (l : List Char) (d : Char)
    (ds' : List Char) (h : l.takeWhile p = d :: ds') : l.head? = some d := by
  cases l with
  | nil => simp at h
  | cons c l' =>
    by_cases hc : p c
    · simp only [List.takeWhile_cons, hc, if_true] at h
      cases h
      rfl
    · simp [List.takeWhile_cons, hc] at h

/-- A successful `numCore` match is nonempty and starts at the head of the
input. -/
lemma numCore_head (xs t : List Char) (h : numCore xs = some t) :
    t ≠ [] ∧ t.head? = xs.head? := by
  simp only [numCore] at h
  rcases hds : xs.takeWhile Char.isDigit with _ | ⟨d, ds'⟩
  · rw [hds] at h
    simp only [List.length_nil, List.drop_zero] at h
    split at h
    · rename_i r2 heq
      split at h
      · simp at h
      · cases h
        exact ⟨by simp, by simp⟩
    · simp at h
  · have hhd := takeWhile_cons_head Char.isDigit xs d ds' hds
    rw [hds] at h
    split at h
    · split at h
      · split at h
        · simp at h
        · cases h
          exact ⟨by simp, by simpa using hhd.symm⟩
      · cases h
        exact ⟨by simp, by simpa using hhd.symm⟩
    · split at h
      · simp at h
      · cases h
        exact ⟨by simp, by simpa using hhd.symm⟩

/-- A successful `numToken` match is nonempty and starts at the head of the
input. -/
lemma numToken_head (xs t : List Char) (h : numToken xs = some t) :
    t ≠ [] ∧ t.head? = xs.head? := by
  unfold numToken at h
  split at h
  · rename_i core hcore
    obtain ⟨hne, hhd⟩ := numCore_head xs core hcore
    cases h
    cases core with
    | nil => exact absurd rfl hne
    | cons c core' => exact ⟨by simp, by simpa using hhd⟩
  · cases h

/-- A successful `matchNumber` match is nonempty and starts at the head of
the input. -/
lemma matchNumber_head (xs t : List Char) (h : matchNumber xs = some t) :
    t ≠ [] ∧ t.head? = xs.head? := by
  cases xs with
  | nil => simp [matchNumber] at h
  | cons c rest =>
    simp only [matchNumber] at h
    by_cases hc : c = '+' ∨ c = '-'
    · rw [if_pos hc] at h
      cases hnt : numToken rest with
      | none => rw [hnt] at h; cases h
      | some u =>
        rw [hnt] at h
        cases h
        exact ⟨by simp, rfl⟩
    · rw [if_neg hc] at h
      exact numToken_head _ _ h

/-- A `tryMatch` result tagged `number` comes from `matchNumber`. -/
lemma tryMatch_number (ifx : Bool) (rem t : List Char)
    (h : tryMatch ifx rem = some (MKind.number, t)) :
    matchNumber rem = some t := by
  unfold tryMatch at h
  split at h
  · rename_i u hu
    cases h
    exact hu
  · rename_i hnone
    split at h
    · cases h
    · repeat' split at h
      all_goals simp at h

/-- Unfolding of one step of the scan loop. -/
lemma scanGo_succ (ifx : Bool) (fuel pos : Nat) (rem : List Char) :
    scanGo ifx (fuel + 1) pos rem =
      match tryMatch ifx rem with
      | some (k, t) =>
        (⟨k, t, pos⟩ : RMatch) :: scanGo ifx fuel (pos + t.length) (rem.drop t.length)
      | none =>
        match rem with
        | [] => []
        | _ :: tl => scanGo ifx fuel (pos + 1) tl := rfl

/-- Every number-kind match produced by the scan loop has nonempty text
whose first character sits at the match's start offset of the scanned
string. -/
lemma scanGo_number_head (ifx : Bool) (cs : List Char) :
    ∀ (fuel pos : Nat) (rem : List Char), rem = cs.drop pos →
      ∀ m ∈ scanGo ifx fuel pos rem, m.kind = MKind.number →
        m.text ≠ [] ∧ m.text.head? = cs.get? m.start := by
  intro fuel
  induction fuel with
  | zero =>
    intro pos rem hrem m hm
    simp [scanGo] at hm
  | succ f ih =>
    intro pos rem hrem m hm hk
    rw [scanGo_succ] at hm
    cases htm : tryMatch ifx rem with
    | some kt =>
      obtain ⟨k, t⟩ := kt
      rw [htm] at hm
      simp only [List.mem_cons] at hm
      rcases hm with rfl | hm
      · simp only at hk
        subst hk
        have hmn : matchNumber rem = some t := tryMatch_number ifx rem t htm
        obtain ⟨hne, hhd⟩ := matchNumber_head rem t hmn
        refine ⟨hne, ?_⟩
        rw [hhd, hrem, head?_drop_eq]
      · exact ih (pos + t.length) (rem.drop t.length)
          (by rw [hrem, drop_drop_eq]) m hm hk
    | none =>
      rw [htm] at hm
      cases hr : rem with
      | nil =>
        rw [hr] at hm
        simp at hm
      | cons c tl =>
        rw [hr] at hm
        refine ih (pos + 1) tl ?_ m hm hk
        have : cs.drop (pos + 1) = (cs.drop pos).drop 1 := (drop_drop_eq cs pos 1).symm
        rw [this, ← hrem, hr]
        rfl

/-- The adjacency property of the amended C4: two neighbouring tokens are
never both `Number`s whose second one starts at a sign character of the
source. -/
def noAdjSignedNum (cs : List Char) (a b : ITok) : Prop :=
  a.isNumber = true → b.isNumber = true → isSignAt cs b.start = false

/-- A match's token segment is never empty. -/
lemma emitSeg_ne_nil (prev : Option MKind) (m : RMatch) :
    emitSeg prev m ≠ [] := by
  unfold emitSeg
  repeat' split
  all_goals simp

/-- Only a number-kind match can end its segment with a `Number` token. -/
lemma emitSeg_last_number (prev : Option MKind) (m : RMatch) (x : ITok)
    (hx : (emitSeg prev m).getLast? = some x) (hn : x.isNumber = true) :
    m.kind = MKind.number := by
  unfold emitSeg at hx
  split at hx
  · rename_i hk
    exact hk
  · split at hx <;> (cases hx; simp [ITok.isNumber] at hn)
  · split at hx <;> (cases hx; simp [ITok.isNumber] at hn)
  · cases hx; simp [ITok.isNumber] at hn

/-- Within one segment the adjacency property holds (a two-token segment
starts with an `Operator`). -/
lemma emitSeg_chain (cs : List Char) (prev : Option MKind) (m : RMatch) :
    List.Chain' (noAdjSignedNum cs) (emitSeg prev m) := by
  unfold emitSeg
  repeat' split
  all_goals simp [List.chain'_cons, noAdjSignedNum, ITok.isNumber]

/-- When the previous match was a number, a segment can only begin with a
`Number` token if its match text does not begin with a sign; hence that
token's start offset is not a sign character of the source. -/
lemma emitSeg_head_sign (cs : List Char) (m : RMatch)
    (hm : m.kind = MKind.number → m.text ≠ [] ∧ m.text.head? = cs.get? m.start)
    (t : ITok) (ht : (emitSeg (some MKind.number) m).head? = some t)
    (hn : t.isNumber = true) : isSignAt cs t.start = false := by
  unfold emitSeg at ht
  split at ht
  · rename_i hk
    split at ht
    · rename_i c restTxt htxt
      split at ht
      · cases ht
        simp [ITok.isNumber] at hn
      · rename_i hcond
        cases ht
        obtain ⟨-, hhd⟩ := hm hk
        rw [htxt] at hhd
        simp only [List.head?_cons] at hhd
        have hc : ¬(c = '-' ∨ c = '+') := fun hor => hcond ⟨rfl, hor⟩
        simp only [not_or] at hc
        simp only [isSignAt, ITok.start]
        rw [← hhd]
        simp [hc.1, hc.2]
    · rename_i htxt
      exact absurd htxt (hm hk).1
  · split at ht <;> (cases ht; simp [ITok.isNumber] at hn)
  · split at ht <;> (cases ht; simp [ITok.isNumber] at hn)
  · cases ht; simp [ITok.isNumber] at hn

/-- The token stream of any match list whose number matches carry their
source head characters satisfies the adjacency property. -/
lemma emitToks_chain (cs : List Char) (ms : List RMatch) :
    ∀ prev : Option MKind,
      (∀ m ∈ ms, m.kind = MKind.number →
        m.text ≠ [] ∧ m.text.head? = cs.get? m.start) →
      List.Chain' (noAdjSignedNum cs) (emitToks prev ms) := by
  induction ms with
  | nil => intro prev _; simp [emitToks]
  | cons m ms' ih =>
    intro prev hms
    have hms' : ∀ m' ∈ ms', m'.kind = MKind.number →
        m'.text ≠ [] ∧ m'.text.head? = cs.get? m'.start :=
      fun m' hm' => hms m' (List.mem_cons_of_mem _ hm')
    rw [emitToks]
    rw [List.chain'_append]
    refine ⟨emitSeg_chain cs prev m, ih (some m.kind) hms', ?_⟩
    intro x hx y hy
    intro hxn hyn
    have hk : m.kind = MKind.number := emitSeg_last_number prev m x hx hxn
    cases ms' with
    | nil => simp [emitToks] at hy
    | cons m2 ms2 =>
      rw [emitToks] at hy
      have hhd : (emitSeg (some m.kind) m2).head? = some y := by
        rcases hseg : emitSeg (some m.kind) m2 with _ | ⟨z, zs⟩
        · exact absurd hseg (emitSeg_ne_nil _ _)
        · rw [hseg] at hy
          simp only [List.cons_append, List.head?_cons] at hy
          rw [List.head?_cons]
          exact Option.mem_def.mp hy
      rw [hk] at hhd
      exact emitSeg_head_sign cs m2
        (fun hk2 => hms' m2 (List.mem_cons_self _ _) hk2) y hhd hyn

/-- C4 counterexample: on input `"4 3"` the infix lexer emits two
consecutive `Number` tokens, refuting the claim that its output never
contains two consecutive `Number`s. -/
theorem c4_counterexample :
    calcTokenize "4 3".toList = [ITok.number 4 0 1, ITok.number 3 2 3] ∧
    (ITok.number 4 0 1).isNumber = true ∧
    (ITok.number 3 2 3).isNumber = true := by
  refine ⟨by with_unfolding_all decide, rfl, rfl⟩

/-- C4 (amended): the sign-disambiguation rule splits a number match that
begins with `+`/`-` right after another number match, so the lexer never
emits two consecutive `Number` tokens of which the second starts at a sign
character of the input (whitespace-separated numerals such as `"4 3"` do
still yield consecutive `Number` tokens); in particular `"4-3"` tokenizes
as `Number(4), Operator(-), Number(3)`, not `Number(4), Number(-3)`. -/
theorem c4_no_adjacent_signed_numbers :
    (∀ cs : List Char, List.Chain' (noAdjSignedNum cs) (calcTokenize cs)) ∧
    calcTokenize "4-3".toList =
      [ITok.number 4 0 1, ITok.operator .minus 1 2, ITok.number 3 2 3] := by
  refine ⟨fun cs => ?_, by with_unfolding_all decide⟩
  refine emitToks_chain cs (scan true cs) none ?_
  intro m hm hk
  exact scanGo_number_head true cs (cs.length + 1) 0 cs (by simp) m hm hk

/-- C10: re-running `evaluate` on the same string yields identical results
(and hence errors of identical kind) for both notations.  In the embedding
each call builds its lexer scan, token stream (with an empty pushback slot)
and operand stack from the input string alone — mirroring the Python code,
where each `evaluate` call constructs a fresh `Tokenizer`/`deque` and the
per-instance `_lookahead` slot never outlives the call — so evaluation is a
pure function of the input and two successive calls coincide. -/
theorem c10_evaluate_deterministic (s : String) :
    calcEvaluateRun s = calcEvaluateRun s ∧ rpnEvaluate s = rpnEvaluate s :=
  ⟨rfl, rfl⟩

end TokSpec
